import Mathlib

/-!
Verification development for the VFE-GO media-review service.

The Go source (`server.go`, `setup.go`) is shallowly embedded below:

* The SQLite catalog (schema in `setup.go`, `schemaSQL`) becomes the `DB`
  structure: one list of rows per table, in rowid order (SQLite returns rows
  of the simple queries used here in insertion order), plus the AUTOINCREMENT
  counters.  `REAL` columns (`ts_seconds`) are embedded as `Rat`; no
  arithmetic is ever performed on them by the program, only pass-through and
  ordering, so this is faithful.
* Forward-slash-normalized file paths are embedded as their segment lists
  (`List String`): `filepath.ToSlash` followed by `strings.Split(rel, "/")`
  is a bijection between slash-normalized paths and slash-free segment
  lists, and the program only ever splits, indexes, and compares paths.
* Foreign keys: SQLite enforces `ON DELETE CASCADE` and `REFERENCES` checks
  only on connections that have issued `PRAGMA foreign_keys = ON`.  That
  pragma appears only at the head of `schemaSQL`, executed by the setup
  binary on its own connection; `server.go` opens a fresh connection
  (`sql.Open("sqlite", cfg.DBPath)`) and never issues the pragma, so on the
  server's connection deletes do not cascade and inserts are not checked
  against referenced rows.  The embedding models the server connection:
  `DELETE FROM vods` removes only vods rows, and `INSERT INTO notes`
  succeeds regardless of whether the referenced vod exists.
* Fallible SQL statements inside the `saveNotes` transaction are modelled
  with an explicit failure oracle (`FailAt`) selecting which statement (if
  any) errors; `defer tx.Rollback()` plus the early returns mean any failure
  leaves the committed state untouched.
* External capabilities (bcrypt verification, JWT parsing) are parameters
  of the functions that use them.
-/

/-- ASCII lower-casing of one character.  Go `strings.ToLower` performs full
Unicode simple folding; the program only ever lower-cases to test the ASCII
suffix `.mp4`, for which ASCII folding is the relevant fragment. -/
def asciiLower (c : Char) : Char :=
  if 'A' ≤ c && c ≤ 'Z' then Char.ofNat (c.toNat + 32) else c

/-- Go `strings.ToLower` (ASCII fragment, see `asciiLower`). -/
def goToLower (s : String) : String :=
  String.mk (s.toList.map asciiLower)

/-- Go `strings.HasSuffix`. -/
def goHasSuffix (s suf : String) : Bool :=
  suf.toList.isSuffixOf s.toList

/-- Go `strings.HasPrefix`. -/
def goHasPrefix (s pre : String) : Bool :=
  pre.toList.isPrefixOf s.toList

/-- Go `strings.TrimPrefix s pre` under the assumption that the prefix is
present (the caller checks `HasPrefix` first): drop `pre`'s characters. -/
def goDropChars (s : String) (n : Nat) : String :=
  String.mk (s.toList.drop n)

/-- Go `unicode.IsSpace`: the Unicode White_Space property (finite list). -/
def goIsSpace (c : Char) : Bool :=
  c == ' ' || c == '\t' || c == '\n' || c.val == 11 || c.val == 12 || c == '\r' ||
  c.val == 0x85 || c.val == 0xA0 || c.val == 0x1680 ||
  (0x2000 ≤ c.val && c.val ≤ 0x200A) ||
  c.val == 0x2028 || c.val == 0x2029 || c.val == 0x202F || c.val == 0x205F || c.val == 0x3000

/-- Go `strings.TrimSpace`. -/
def goTrimSpace (s : String) : String :=
  String.mk (((s.toList.dropWhile goIsSpace).reverse.dropWhile goIsSpace).reverse)

/-- `strings.TrimSpace(s) == ""`: the blank-content test used by the note handlers. -/
def isBlank (s : String) : Bool := goTrimSpace s == ""

/-- An HTTP response as observed by the caller: status code and message body
(`http.Error(w, msg, code)` writes exactly these two). -/
structure Resp where
  status : Nat
  body : String
deriving DecidableEq

/-- Row of the `users` table (columns used by the embedded handlers). -/
structure UserRow where
  id : Int
  username : String
  passwordHash : String
  role : String
deriving DecidableEq

/-- Row of the `teams` table. -/
structure TeamRow where
  id : Int
  name : String
deriving DecidableEq

/-- Row of the `players` table. -/
structure PlayerRow where
  id : Int
  teamId : Int
  name : String
deriving DecidableEq

/-- Row of the `vods` table.  `filePath` is the forward-slash-normalized
path, embedded as its segment list. -/
structure VodRow where
  id : Int
  playerId : Int
  filePath : List String
  title : String
deriving DecidableEq

/-- Row of the `notes` table. -/
structure NoteRow where
  id : Int
  vodId : Int
  userId : Int
  tsSeconds : Rat
  content : String
deriving DecidableEq

/-- The catalog store: one list per table in rowid order, plus the
AUTOINCREMENT counters. -/
structure DB where
  users : List UserRow
  teams : List TeamRow
  players : List PlayerRow
  vods : List VodRow
  notes : List NoteRow
  nextTeamId : Int
  nextPlayerId : Int
  nextVodId : Int
  nextNoteId : Int
deriving DecidableEq

/-- A catalog mutation performed by `ScanStorage` (used to state the
zero-mutations idempotence property). -/
inductive Mutation where
  | insertTeam (name : String)
  | insertPlayer (name : String) (teamId : Int)
  | insertVod (path : List String) (title : String) (playerId : Int)
  | deleteVod (id : Int)
deriving DecidableEq

/-- One entry yielded by `filepath.Walk`: the path (as segments, already
slash-normalized) and whether it is a directory.  `info.Name()` is the last
segment. -/
structure WalkEntry where
  segs : List String
  isDir : Bool
deriving DecidableEq

/-- The filter at the top of the walk callback:
`info.IsDir() || !strings.HasSuffix(strings.ToLower(info.Name()), ".mp4")`
(negated). -/
def isVideoEntry (e : WalkEntry) : Bool :=
  !e.isDir && goHasSuffix (goToLower (e.segs.getLastD "")) ".mp4"

/-- `SELECT id FROM teams WHERE name = ?`, and on no row
`INSERT INTO teams (name) VALUES (?)` (returning `LastInsertId`). -/
def ensureTeam (db : DB) (nm : String) : DB × Int × List Mutation :=
  match db.teams.find? (fun t => t.name == nm) with
  | some t => (db, t.id, [])
  | none =>
    ({ db with teams := db.teams ++ [⟨db.nextTeamId, nm⟩], nextTeamId := db.nextTeamId + 1 },
     db.nextTeamId, [Mutation.insertTeam nm])

/-- `SELECT id FROM players WHERE name = ? AND team_id = ?`, and on no row
`INSERT INTO players (name, team_id) VALUES (?, ?)`. -/
def ensurePlayer (db : DB) (nm : String) (teamId : Int) : DB × Int × List Mutation :=
  match db.players.find? (fun p => p.name == nm && p.teamId == teamId) with
  | some p => (db, p.id, [])
  | none =>
    ({ db with
        players := db.players ++ [⟨db.nextPlayerId, teamId, nm⟩]
        nextPlayerId := db.nextPlayerId + 1 },
     db.nextPlayerId, [Mutation.insertPlayer nm teamId])

/-- `SELECT COUNT(*) FROM vods WHERE file_path = ?`, and when the count is 0,
`INSERT INTO vods (file_path, title, player_id)` with title `info.Name()`. -/
def ensureVod (db : DB) (segs : List String) (playerId : Int) : DB × List Mutation :=
  if db.vods.countP (fun v => v.filePath == segs) == 0 then
    ({ db with
        vods := db.vods ++ [⟨db.nextVodId, playerId, segs, segs.getLastD ""⟩]
        nextVodId := db.nextVodId + 1 },
     [Mutation.insertVod segs (segs.getLastD "") playerId])
  else (db, [])

/-- The body of the `filepath.Walk` callback in `ScanStorage` for a single
entry: skip directories and non-`.mp4` names; skip (with a warning) paths of
fewer than 6 slash-separated parts; otherwise team name is `parts[2]`,
player name is `parts[4]`, and team, player and vod rows are created if
absent. -/
def scanStep (db : DB) (e : WalkEntry) : DB × List Mutation :=
  if !isVideoEntry e then (db, [])
  else if e.segs.length < 6 then (db, [])
  else
    let et := ensureTeam db (e.segs.getD 2 "")
    let ep := ensurePlayer et.1 (e.segs.getD 4 "") et.2.1
    let ev := ensureVod ep.1 e.segs ep.2.1
    (ev.1, et.2.2 ++ ep.2.2 ++ ev.2)

/-- The walk phase of `ScanStorage`: fold `scanStep` over the entries in
walk order, collecting the mutations. -/
def scanWalk : DB → List WalkEntry → DB × List Mutation
  | db, [] => (db, [])
  | db, e :: rest =>
    ((scanWalk (scanStep db e).1 rest).1,
      (scanStep db e).2 ++ (scanWalk (scanStep db e).1 rest).2)

/-- The `filesOnDisk` set built during the walk: every non-directory entry
whose lowercased name ends in `.mp4` is recorded (before the depth check). -/
def filesOnDisk (disk : List WalkEntry) : List (List String) :=
  (disk.filter isVideoEntry).map (fun e => e.segs)

/-- The removal phase of `ScanStorage`: iterate over a snapshot of
`SELECT id, file_path FROM vods` and, for each row whose path is not in
`filesOnDisk`, execute `DELETE FROM vods WHERE id = ?`.  On the server's
connection `PRAGMA foreign_keys` was never enabled, so the delete touches
only the vods table (no cascade into notes). -/
def deleteStaleAux : List VodRow → List (List String) → DB → DB × List Mutation
  | [], _, db => (db, [])
  | v :: rest, files, db =>
    if v.filePath ∈ files then deleteStaleAux rest files db
    else
      ((deleteStaleAux rest files
          { db with vods := db.vods.filter (fun w => !(w.id == v.id)) }).1,
        Mutation.deleteVod v.id ::
          (deleteStaleAux rest files
            { db with vods := db.vods.filter (fun w => !(w.id == v.id)) }).2)

/-- `ScanStorage`: walk phase followed by the stale-row removal phase. -/
def ScanStorage (db : DB) (disk : List WalkEntry) : DB × List Mutation :=
  ((deleteStaleAux (scanWalk db disk).1.vods (filesOnDisk disk) (scanWalk db disk).1).1,
    (scanWalk db disk).2 ++
      (deleteStaleAux (scanWalk db disk).1.vods (filesOnDisk disk) (scanWalk db disk).1).2)

/-- The paths the walk phase actually catalogs: video files whose path has
at least 6 segments (the code's only shape check is `len(parts) < 6`). -/
def qualPaths (disk : List WalkEntry) : List (List String) :=
  (disk.filter (fun e => isVideoEntry e && decide (6 ≤ e.segs.length))).map (fun e => e.segs)

/-- Modelled from the spec: a qualifying file per the specification text —
a regular file whose name ends in the recognized video extension (`.mp4`,
case-insensitive) at a path matching the fixed depth pattern
`root/teams/<team>/players/<player>/vods/<file>` with root `storage`.
Used only to compare the spec's notion against the code's. -/
def specQualifyingPath (p : List String) : Bool :=
  match p with
  | [root, a, _team, b, _player, c, f] =>
    root == "storage" && a == "teams" && b == "players" && c == "vods" &&
      goHasSuffix (goToLower f) ".mp4"
  | _ => false

/-- The walk-callback body performs no mutation for this entry: the entry is
skipped, or its team, player and vod rows are already present exactly where
the callback's lookups find them. -/
def settled (db : DB) (e : WalkEntry) : Bool :=
  if !isVideoEntry e then true
  else if e.segs.length < 6 then true
  else
    match db.teams.find? (fun t => t.name == e.segs.getD 2 "") with
    | none => false
    | some t =>
      match db.players.find? (fun p => p.name == e.segs.getD 4 "" && p.teamId == t.id) with
      | none => false
      | some _ => !(db.vods.countP (fun v => v.filePath == e.segs) == 0)

/-- Schema invariants of the vods table that SQLite enforces regardless of
the foreign-key pragma: `id INTEGER PRIMARY KEY AUTOINCREMENT` means row ids
are pairwise distinct and the next issued id is fresh. -/
def VodIdsWf (db : DB) : Prop :=
  (db.vods.map (fun v => v.id)).Nodup ∧ ∀ v ∈ db.vods, v.id < db.nextVodId

instance (db : DB) : Decidable (VodIdsWf db) := by
  unfold VodIdsWf
  infer_instance

/-- `INSERT INTO notes (vod_id, user_id, ts_seconds, content) VALUES (?,?,?,?)`.
On the server's connection foreign keys are not enforced (the pragma is never
issued there), so the insert succeeds whether or not the referenced vod row
exists, and the statement has no other failable constraint. -/
def dbInsertNote (db : DB) (vid uid : Int) (ts : Rat) (content : String) : DB :=
  { db with
      notes := db.notes ++ [⟨db.nextNoteId, vid, uid, ts, content⟩]
      nextNoteId := db.nextNoteId + 1 }

/-- The `WHERE vod_id = ? AND user_id = ?` clause scoping a note row to one
(recording, author) pair. -/
def pairP (vid uid : Int) (n : NoteRow) : Bool :=
  n.vodId == vid && n.userId == uid

/-- `DELETE FROM notes WHERE vod_id = ? AND user_id = ?`. -/
def dbDeleteNotesFor (db : DB) (vid uid : Int) : DB :=
  { db with notes := db.notes.filter (fun n => !pairP vid uid n) }

/-- `addNote` handler (after method and JSON decoding succeed): reject blank
content with 400, otherwise insert the note row and answer 200.  No check
that the vod exists is performed, and without foreign-key enforcement on the
server's connection the insert cannot fail on a missing vod. -/
def addNote (db : DB) (uid vid : Int) (ts : Rat) (content : String) : DB × Resp :=
  if isBlank content then (db, ⟨400, "empty note"⟩)
  else (dbInsertNote db vid uid ts content, ⟨200, "ok"⟩)

/-- Which statement of the `saveNotes` transaction fails, if any; `atInsert n`
fails the n-th insert statement actually executed (blank items execute no
statement). -/
inductive FailAt where
  | noFail
  | atBegin
  | atDelete
  | atInsert (n : Nat)
  | atCommit
deriving DecidableEq

/-- The insert loop of `saveNotes`, run against the transaction-local state:
skip blank items, otherwise execute the insert; `none` when the failure
oracle hits an executed insert. -/
def insertLoop (vid uid : Int) : List (Rat × String) → Nat → DB → FailAt → Option DB
  | [], _, db, _ => some db
  | (ts, c) :: rest, k, db, f =>
    if isBlank c then insertLoop vid uid rest k db f
    else if f == FailAt.atInsert k then none
    else insertLoop vid uid rest (k + 1) (dbInsertNote db vid uid ts c) f

/-- One iteration of the insert loop as a pure fold step (skip blank,
otherwise insert). -/
def insStep (uid vid : Int) (d : DB) (it : Rat × String) : DB :=
  if isBlank it.2 then d else dbInsertNote d vid uid it.1 it.2

/-- `saveNotes` handler (after method and JSON decoding succeed): one
transaction that deletes the caller's notes for the vod and inserts the
submitted non-blank items; `defer tx.Rollback()` plus the early error
returns mean any failing statement leaves the committed state untouched. -/
def saveNotes (db : DB) (uid vid : Int) (items : List (Rat × String)) (f : FailAt) : DB × Resp :=
  if f == FailAt.atBegin then (db, ⟨500, "db error"⟩)
  else if f == FailAt.atDelete then (db, ⟨500, "delete error"⟩)
  else
    match insertLoop vid uid items 0 (dbDeleteNotesFor db vid uid) f with
    | none => (db, ⟨500, "insert error"⟩)
    | some db2 => if f == FailAt.atCommit then (db, ⟨500, "commit error"⟩) else (db2, ⟨200, "saved"⟩)

/-- The committed result of a successful `saveNotes`: delete the pair's
notes, then insert every non-blank item in order. -/
def replaceNotes (db : DB) (uid vid : Int) (items : List (Rat × String)) : DB :=
  items.foldl (insStep uid vid) (dbDeleteNotesFor db vid uid)

/-- The three error responses of the `auth` middleware (all written with
`http.Error(w, msg, 401)`). -/
def respMissingBearer : Resp := ⟨401, "missing bearer"⟩

/-- `auth` response when `jwt.Parse` errors or the token is invalid. -/
def respBadToken : Resp := ⟨401, "invalid token"⟩

/-- `auth` response when the parsed claims are not `jwt.MapClaims`. -/
def respBadClaims : Resp := ⟨401, "bad claims"⟩

/-- A Go `interface{}` value as produced by JSON decoding inside the JWT
library: numbers decode to `float64` (embedded as `Rat`), strings to
`string`; `nil` is the zero value a map lookup yields for a missing key. -/
inductive GoVal where
  | num (x : Rat)
  | str (s : String)
  | boolean (b : Bool)
  | nil
deriving DecidableEq

/-- `v` is a `float64`, i.e. the type assertion `v.(float64)` succeeds. -/
def GoVal.isNum : GoVal → Bool
  | .num _ => true
  | _ => false

/-- `v` is a `string`, i.e. the type assertion `v.(string)` succeeds. -/
def GoVal.isStr : GoVal → Bool
  | .num _ => false
  | .str _ => true
  | .boolean _ => false
  | .nil => false

/-- `jwt.MapClaims` as an association list. -/
def JwtClaims : Type := List (String × GoVal)

instance : DecidableEq JwtClaims := by
  unfold JwtClaims
  infer_instance

/-- Go map indexing `claims[k]`: the zero value (`nil`) when absent. -/
def claimGet (cs : JwtClaims) (k : String) : GoVal :=
  match cs.find? (fun kv => kv.1 == k) with
  | some kv => kv.2
  | none => GoVal.nil

/-- Outcome of `jwt.Parse` + validity check + the `MapClaims` assertion. -/
inductive ParseOut where
  | badToken
  | notMapClaims
  | valid (cs : JwtClaims)
deriving DecidableEq

/-- Outcome of the `auth` middleware: a Go panic (from a failed unchecked
type assertion), an error response, or invocation of the wrapped handler
with the extracted identity. -/
inductive AuthOutcome where
  | panicked
  | rejected (r : Resp)
  | proceed (id : Int) (role : String)
deriving DecidableEq

/-- `int64(x)` applied to a `float64`: truncation toward zero. -/
def ratTruncToInt (x : Rat) : Int :=
  if 0 ≤ x then x.floor else -((-x).floor)

/-- The `auth` middleware over a request's `Authorization` header, with
token parsing abstracted as `parse`: check the `Bearer ` prefix, parse and
validate the token, assert `MapClaims`, then run the unchecked type
assertions `claims["sub"].(float64)` (first) and `claims["role"].(string)`
— a failed assertion panics. -/
def auth (parse : String → ParseOut) (header : String) : AuthOutcome :=
  if !goHasPrefix header "Bearer " then AuthOutcome.rejected respMissingBearer
  else
    match parse (goDropChars header 7) with
    | ParseOut.badToken => AuthOutcome.rejected respBadToken
    | ParseOut.notMapClaims => AuthOutcome.rejected respBadClaims
    | ParseOut.valid cs =>
      match claimGet cs "sub" with
      | GoVal.num x =>
        match claimGet cs "role" with
        | GoVal.str r => AuthOutcome.proceed (ratTruncToInt x) r
        | _ => AuthOutcome.panicked
      | _ => AuthOutcome.panicked

/-- `login` handler (after method and JSON decoding succeed), with bcrypt
verification abstracted as `verify hash password`: look the user up by
username; a missing row and a failed hash comparison take the same branch
and produce the identical `http.Error(w, "invalid credentials", 401)`.  On
success a token is minted (abstracted) and 200 returned. -/
def login (verify : String → String → Bool) (db : DB) (username password : String) :
    DB × Resp :=
  match db.users.find? (fun u => u.username == username) with
  | none => (db, ⟨401, "invalid credentials"⟩)
  | some u =>
    if verify u.passwordHash password then (db, ⟨200, "token"⟩)
    else (db, ⟨401, "invalid credentials"⟩)

/-- `addTeam` handler: non-admin roles are rejected with
`http.Error(w, "forbidden", 403)` before anything touches the store; admins
get trimming/validation, `INSERT OR IGNORE INTO teams(name)`, directory
creation (external, modelled as succeeding), and 200.  `body` is `none`
when JSON decoding fails. -/
def addTeam (db : DB) (role : String) (body : Option String) : DB × Resp :=
  if role != "admin" then (db, ⟨403, "forbidden"⟩)
  else
    match body with
    | none => (db, ⟨400, "bad json"⟩)
    | some nm =>
      let teamName := goTrimSpace nm
      if teamName == "" then (db, ⟨400, "team name required"⟩)
      else
        let db1 :=
          if (db.teams.find? (fun t => t.name == teamName)).isSome then db
          else
            { db with
                teams := db.teams ++ [⟨db.nextTeamId, teamName⟩]
                nextTeamId := db.nextTeamId + 1 }
        (db1, ⟨200, "ok"⟩)

/-! ## Lemmas about the annotation synchronizer -/

theorem insertLoop_some_eq (vid uid : Int) (items : List (Rat × String)) :
    ∀ (k : Nat) (db : DB) (f : FailAt) (d : DB),
      insertLoop vid uid items k db f = some d →
      d = items.foldl (insStep uid vid) db := by
  induction items with
  | nil =>
    intro k db f d h
    simp only [insertLoop, Option.some.injEq] at h
    simp [h.symm]
  | cons it rest ih =>
    intro k db f d h
    obtain ⟨ts, c⟩ := it
    simp only [insertLoop] at h
    by_cases hb : isBlank c = true
    · rw [if_pos hb] at h
      simpa [List.foldl, insStep, hb] using ih k db f d h
    · rw [if_neg hb] at h
      by_cases hf : (f == FailAt.atInsert k) = true
      · rw [if_pos hf] at h
        exact absurd h (by simp)
      · rw [if_neg hf] at h
        simpa [List.foldl, insStep, hb] using ih (k + 1) (dbInsertNote db vid uid ts c) f d h

theorem insertLoop_noFail (vid uid : Int) (items : List (Rat × String)) :
    ∀ (k : Nat) (db : DB),
      insertLoop vid uid items k db FailAt.noFail =
        some (items.foldl (insStep uid vid) db) := by
  induction items with
  | nil => intro k db; simp [insertLoop]
  | cons it rest ih =>
    intro k db
    obtain ⟨ts, c⟩ := it
    by_cases hb : isBlank c = true
    · simp [insertLoop, hb, ih, List.foldl, insStep]
    · simp [insertLoop, hb, ih, List.foldl, insStep]

/-- Every run of `saveNotes` either commits the full replacement with a 200,
or leaves the store exactly as it was with a 500. -/
theorem saveNotes_cases (db : DB) (uid vid : Int) (items : List (Rat × String)) (f : FailAt) :
    saveNotes db uid vid items f = (replaceNotes db uid vid items, ⟨200, "saved"⟩) ∨
      ∃ b, saveNotes db uid vid items f = (db, ⟨500, b⟩) := by
  unfold saveNotes
  by_cases h1 : (f == FailAt.atBegin) = true
  · right
    exact ⟨"db error", by rw [if_pos h1]⟩
  · rw [if_neg h1]
    by_cases h2 : (f == FailAt.atDelete) = true
    · right
      exact ⟨"delete error", by rw [if_pos h2]⟩
    · rw [if_neg h2]
      cases hloop : insertLoop vid uid items 0 (dbDeleteNotesFor db vid uid) f with
      | none => exact Or.inr ⟨"insert error", rfl⟩
      | some d =>
        by_cases h3 : (f == FailAt.atCommit) = true
        · right
          exact ⟨"commit error", by dsimp only; rw [if_pos h3]⟩
        · left
          dsimp only
          rw [if_neg h3]
          have := insertLoop_some_eq vid uid items 0 (dbDeleteNotesFor db vid uid) f d hloop
          rw [this, replaceNotes]

theorem dbInsertNote_tables (db : DB) (vid uid : Int) (ts : Rat) (c : String) :
    (dbInsertNote db vid uid ts c).users = db.users ∧
      (dbInsertNote db vid uid ts c).teams = db.teams ∧
      (dbInsertNote db vid uid ts c).players = db.players ∧
      (dbInsertNote db vid uid ts c).vods = db.vods :=
  ⟨rfl, rfl, rfl, rfl⟩

theorem foldIns_tables (uid vid : Int) (items : List (Rat × String)) :
    ∀ d : DB,
      (items.foldl (insStep uid vid) d).users = d.users ∧
        (items.foldl (insStep uid vid) d).teams = d.teams ∧
        (items.foldl (insStep uid vid) d).players = d.players ∧
        (items.foldl (insStep uid vid) d).vods = d.vods := by
  induction items with
  | nil => intro d; exact ⟨rfl, rfl, rfl, rfl⟩
  | cons it rest ih =>
    intro d
    simp only [List.foldl]
    refine (ih (insStep uid vid d it)).imp ?_ (fun h => ?_)
    · intro h
      rw [h]
      unfold insStep
      split <;> rfl
    · refine h.imp (fun h1 => ?_) (fun h1 => h1.imp (fun h2 => ?_) (fun h2 => ?_))
      · rw [h1]; unfold insStep; split <;> rfl
      · rw [h2]; unfold insStep; split <;> rfl
      · rw [h2]; unfold insStep; split <;> rfl

/-- The new row inserted for the pair satisfies the pair predicate. -/
theorem pairP_inserted (vid uid : Int) (id : Int) (ts : Rat) (c : String) :
    pairP vid uid ⟨id, vid, uid, ts, c⟩ = true := by
  simp [pairP]

theorem foldIns_filter_other (uid vid : Int) (items : List (Rat × String)) :
    ∀ d : DB,
      (items.foldl (insStep uid vid) d).notes.filter (fun n => !pairP vid uid n) =
        d.notes.filter (fun n => !pairP vid uid n) := by
  induction items with
  | nil => intro d; rfl
  | cons it rest ih =>
    intro d
    simp only [List.foldl]
    rw [ih (insStep uid vid d it)]
    unfold insStep
    split
    · rfl
    · simp [dbInsertNote, List.filter_append, pairP]

theorem foldIns_filter_pair (uid vid : Int) (items : List (Rat × String)) :
    ∀ d : DB,
      ((items.foldl (insStep uid vid) d).notes.filter (pairP vid uid)).map
          (fun n => (n.tsSeconds, n.content)) =
        ((d.notes.filter (pairP vid uid)).map (fun n => (n.tsSeconds, n.content))) ++
          items.filter (fun it => !isBlank it.2) := by
  induction items with
  | nil => intro d; simp
  | cons it rest ih =>
    intro d
    obtain ⟨ts, c⟩ := it
    simp only [List.foldl]
    rw [ih (insStep uid vid d (ts, c))]
    by_cases hb : isBlank c = true
    · simp [insStep, hb]
    · simp [insStep, hb, dbInsertNote, List.filter_append, pairP]

theorem delete_filter_pair (db : DB) (vid uid : Int) :
    (dbDeleteNotesFor db vid uid).notes.filter (pairP vid uid) = [] := by
  simp only [dbDeleteNotesFor, List.filter_filter]
  have : ∀ n : NoteRow, (pairP vid uid n && !pairP vid uid n) = false := by
    intro n; cases pairP vid uid n <;> rfl
  simp [this]

theorem delete_filter_other (db : DB) (vid uid : Int) :
    (dbDeleteNotesFor db vid uid).notes.filter (fun n => !pairP vid uid n) =
      db.notes.filter (fun n => !pairP vid uid n) := by
  simp only [dbDeleteNotesFor, List.filter_filter]
  exact List.filter_congr (fun n _ => by cases pairP vid uid n <;> rfl)

/-- C4: for every recording id, author id and item sequence, a successful
replace (`saveNotes`) leaves, for that (recording, author) pair, exactly one
note per submitted non-blank item, in order, with the submitted offset and
content; all previous notes of the pair are gone (the pair's filtered rows
project to exactly the submitted non-blank items), and whitespace-only items
are dropped without producing an error (the failure-free run still answers
200). -/
theorem saveNotes_replaces_pair (db : DB) (uid vid : Int) (items : List (Rat × String))
    (f : FailAt) (hok : (saveNotes db uid vid items f).2.status = 200) :
    ((saveNotes db uid vid items f).1.notes.filter (pairP vid uid)).map
        (fun n => (n.tsSeconds, n.content)) =
      items.filter (fun it => !isBlank it.2) ∧
    (saveNotes db uid vid items FailAt.noFail).2.status = 200 := by
  constructor
  · rcases saveNotes_cases db uid vid items f with h | ⟨b, h⟩
    · rw [h]
      simp only [replaceNotes]
      rw [foldIns_filter_pair, delete_filter_pair]
      simp
    · rw [h] at hok
      exact absurd hok (by simp)
  · rcases saveNotes_cases db uid vid items FailAt.noFail with h | ⟨b, h⟩
    · rw [h]
    · exfalso
      have hl : insertLoop vid uid items 0 (dbDeleteNotesFor db vid uid) FailAt.noFail =
          some (items.foldl (insStep uid vid) (dbDeleteNotesFor db vid uid)) :=
        insertLoop_noFail vid uid items 0 (dbDeleteNotesFor db vid uid)
      simp [saveNotes, hl] at h

theorem saveNotes_replaces_pair_witness :
    (saveNotes ⟨[], [], [], [], [⟨1, 1, 5, (3 : Rat), "old"⟩], 1, 1, 1, 2⟩ 5 1
        [((0 : Rat), "  "), ((5 : Rat), "ok")] FailAt.noFail).2.status = 200 ∧
    ((saveNotes ⟨[], [], [], [], [⟨1, 1, 5, (3 : Rat), "old"⟩], 1, 1, 1, 2⟩ 5 1
        [((0 : Rat), "  "), ((5 : Rat), "ok")] FailAt.noFail).1.notes.filter (pairP 1 5)).map
        (fun n => (n.tsSeconds, n.content)) =
      [((5 : Rat), "ok")] := by
  refine ⟨by decide, ?_⟩
  have := saveNotes_replaces_pair ⟨[], [], [], [], [⟨1, 1, 5, (3 : Rat), "old"⟩], 1, 1, 1, 2⟩ 5 1
    [((0 : Rat), "  "), ((5 : Rat), "ok")] FailAt.noFail (by decide)
  rw [this.1]
  decide

/-- C5: `saveNotes` only touches notes of the calling author for the given
recording: whatever the failure oracle does, the notes outside the
(recording, author) pair are exactly what they were, and no other table is
touched. -/
theorem saveNotes_frame (db : DB) (uid vid : Int) (items : List (Rat × String)) (f : FailAt) :
    (saveNotes db uid vid items f).1.notes.filter (fun n => !pairP vid uid n) =
      db.notes.filter (fun n => !pairP vid uid n) ∧
    (saveNotes db uid vid items f).1.users = db.users ∧
    (saveNotes db uid vid items f).1.teams = db.teams ∧
    (saveNotes db uid vid items f).1.players = db.players ∧
    (saveNotes db uid vid items f).1.vods = db.vods := by
  rcases saveNotes_cases db uid vid items f with h | ⟨b, h⟩
  · rw [h]
    refine ⟨?_, ?_, ?_, ?_, ?_⟩
    · simp only [replaceNotes]
      rw [foldIns_filter_other, delete_filter_other]
    · rw [replaceNotes]
      exact ((foldIns_tables uid vid items _).1)
    · rw [replaceNotes]
      exact ((foldIns_tables uid vid items _).2.1)
    · rw [replaceNotes]
      exact ((foldIns_tables uid vid items _).2.2.1)
    · rw [replaceNotes]
      exact ((foldIns_tables uid vid items _).2.2.2)
  · rw [h]
    exact ⟨rfl, rfl, rfl, rfl, rfl⟩

/-- C6: `saveNotes` is atomic: every run either commits the whole
delete-then-insert (status 200 and the state is the full replacement) or is
rolled back (status 500 and the state is exactly the pre-call state); no run
shows the delete without all the inserts. -/
theorem saveNotes_atomic (db : DB) (uid vid : Int) (items : List (Rat × String)) (f : FailAt) :
    ((saveNotes db uid vid items f).2.status = 200 ∧
        (saveNotes db uid vid items f).1 = replaceNotes db uid vid items) ∨
      ((saveNotes db uid vid items f).2.status = 500 ∧
        (saveNotes db uid vid items f).1 = db) := by
  rcases saveNotes_cases db uid vid items f with h | ⟨b, h⟩
  · left
    rw [h]
    exact ⟨rfl, rfl⟩
  · right
    rw [h]
    exact ⟨rfl, rfl⟩

/-! ## Lemmas about the storage reconciler -/

theorem ensureTeam_found (db : DB) (nm : String) (t : TeamRow)
    (h : db.teams.find? (fun x => x.name == nm) = some t) :
    ensureTeam db nm = (db, t.id, []) := by
  unfold ensureTeam
  rw [h]

theorem ensureTeam_find (db : DB) (nm : String) :
    (ensureTeam db nm).1.teams.find? (fun t => t.name == nm) =
      some ⟨(ensureTeam db nm).2.1, nm⟩ := by
  unfold ensureTeam
  cases hf : db.teams.find? (fun t => t.name == nm) with
  | some t =>
    have hn : t.name = nm := by simpa using List.find?_some hf
    obtain ⟨ti, tn⟩ := t
    simp only at hn
    subst hn
    simpa using hf
  | none =>
    simp [List.find?_append, hf]

theorem ensureTeam_rest (db : DB) (nm : String) :
    (ensureTeam db nm).1.players = db.players ∧ (ensureTeam db nm).1.vods = db.vods ∧
      (ensureTeam db nm).1.notes = db.notes ∧
      (ensureTeam db nm).1.nextPlayerId = db.nextPlayerId ∧
      (ensureTeam db nm).1.nextVodId = db.nextVodId := by
  unfold ensureTeam
  cases db.teams.find? (fun t => t.name == nm) <;> exact ⟨rfl, rfl, rfl, rfl, rfl⟩

theorem ensureTeam_teams_append (db : DB) (nm : String) :
    ∃ l, (ensureTeam db nm).1.teams = db.teams ++ l := by
  unfold ensureTeam
  cases db.teams.find? (fun t => t.name == nm) with
  | none => exact ⟨[⟨db.nextTeamId, nm⟩], rfl⟩
  | some t => exact ⟨[], (List.append_nil _).symm⟩

theorem ensurePlayer_found (db : DB) (nm : String) (tid : Int) (p : PlayerRow)
    (h : db.players.find? (fun x => x.name == nm && x.teamId == tid) = some p) :
    ensurePlayer db nm tid = (db, p.id, []) := by
  unfold ensurePlayer
  rw [h]

theorem ensurePlayer_find (db : DB) (nm : String) (tid : Int) :
    (ensurePlayer db nm tid).1.players.find? (fun p => p.name == nm && p.teamId == tid) =
      some ⟨(ensurePlayer db nm tid).2.1, tid, nm⟩ := by
  unfold ensurePlayer
  cases hf : db.players.find? (fun p => p.name == nm && p.teamId == tid) with
  | some p =>
    have hp := List.find?_some hf
    simp only [Bool.and_eq_true, beq_iff_eq] at hp
    obtain ⟨pi, pt, pn⟩ := p
    simp only at hp
    obtain ⟨hn, ht⟩ := hp
    subst hn
    subst ht
    simpa using hf
  | none =>
    simp [List.find?_append, hf]

theorem ensurePlayer_rest (db : DB) (nm : String) (tid : Int) :
    (ensurePlayer db nm tid).1.teams = db.teams ∧ (ensurePlayer db nm tid).1.vods = db.vods ∧
      (ensurePlayer db nm tid).1.notes = db.notes ∧
      (ensurePlayer db nm tid).1.nextVodId = db.nextVodId := by
  unfold ensurePlayer
  cases db.players.find? (fun p => p.name == nm && p.teamId == tid) <;> exact ⟨rfl, rfl, rfl, rfl⟩

theorem ensurePlayer_players_append (db : DB) (nm : String) (tid : Int) :
    ∃ l, (ensurePlayer db nm tid).1.players = db.players ++ l := by
  unfold ensurePlayer
  cases db.players.find? (fun p => p.name == nm && p.teamId == tid) with
  | none => exact ⟨[⟨db.nextPlayerId, tid, nm⟩], rfl⟩
  | some p => exact ⟨[], (List.append_nil _).symm⟩

theorem ensureVod_found (db : DB) (segs : List String) (pid : Int)
    (h : db.vods.countP (fun v => v.filePath == segs) ≠ 0) :
    ensureVod db segs pid = (db, []) := by
  unfold ensureVod
  rw [if_neg]
  simpa using h

theorem ensureVod_count (db : DB) (segs : List String) (pid : Int) :
    (ensureVod db segs pid).1.vods.countP (fun v => v.filePath == segs) ≠ 0 := by
  unfold ensureVod
  split
  · simp [List.countP_append, List.countP_cons]
  · next h => simpa using h

theorem ensureVod_rest (db : DB) (segs : List String) (pid : Int) :
    (ensureVod db segs pid).1.teams = db.teams ∧
      (ensureVod db segs pid).1.players = db.players ∧
      (ensureVod db segs pid).1.notes = db.notes := by
  unfold ensureVod
  split <;> exact ⟨rfl, rfl, rfl⟩

theorem ensureVod_vods_append (db : DB) (segs : List String) (pid : Int) :
    ∃ l, (ensureVod db segs pid).1.vods = db.vods ++ l ∧
      ∀ v ∈ l, v.filePath = segs ∧ v.id = db.nextVodId := by
  unfold ensureVod
  split
  · exact ⟨[⟨db.nextVodId, pid, segs, segs.getLastD ""⟩], rfl, by simp⟩
  · exact ⟨[], (List.append_nil _).symm, by simp⟩

theorem ensureVod_wf (db : DB) (segs : List String) (pid : Int) (h : VodIdsWf db) :
    VodIdsWf (ensureVod db segs pid).1 := by
  obtain ⟨hnd, hlt⟩ := h
  unfold ensureVod
  split
  · constructor
    · simp only [List.map_append, List.map_cons, List.map_nil]
      rw [List.nodup_append]
      refine ⟨hnd, List.nodup_singleton _, ?_⟩
      intro a ha hb
      simp only [List.mem_singleton] at hb
      subst hb
      obtain ⟨v, hv, hva⟩ := List.mem_map.mp ha
      exact absurd (hva ▸ hlt v hv) (lt_irrefl _)
    · intro v hv
      rcases List.mem_append.mp hv with h1 | h1
      · exact lt_trans (hlt v h1) (by simp)
      · simp only [List.mem_singleton] at h1
        subst h1
        simp
  · exact ⟨hnd, hlt⟩

theorem VodIdsWf_of_fields (db db' : DB) (hv : db'.vods = db.vods)
    (hn : db'.nextVodId = db.nextVodId) (h : VodIdsWf db) : VodIdsWf db' := by
  obtain ⟨hnd, hlt⟩ := h
  exact ⟨hv ▸ hnd, fun v hmem => hn ▸ hlt v (hv ▸ hmem)⟩

/-- The catalog of `db'` extends that of `db`: each of the three tables the
walk phase writes has only been appended to. -/
def Extends (db' db : DB) : Prop :=
  (∃ l, db'.teams = db.teams ++ l) ∧ (∃ l, db'.players = db.players ++ l) ∧
    (∃ l, db'.vods = db.vods ++ l)

theorem extends_refl (db : DB) : Extends db db :=
  ⟨⟨[], by simp⟩, ⟨[], by simp⟩, ⟨[], by simp⟩⟩

theorem extends_trans {a b c : DB} (h1 : Extends b a) (h2 : Extends c b) : Extends c a := by
  obtain ⟨⟨t1, ht1⟩, ⟨p1, hp1⟩, ⟨v1, hv1⟩⟩ := h1
  obtain ⟨⟨t2, ht2⟩, ⟨p2, hp2⟩, ⟨v2, hv2⟩⟩ := h2
  exact ⟨⟨t1 ++ t2, by rw [ht2, ht1, List.append_assoc]⟩,
    ⟨p1 ++ p2, by rw [hp2, hp1, List.append_assoc]⟩,
    ⟨v1 ++ v2, by rw [hv2, hv1, List.append_assoc]⟩⟩

theorem settled_of_notVideo (db : DB) (e : WalkEntry) (h : isVideoEntry e = false) :
    settled db e = true := by
  unfold settled
  rw [h]
  rfl

theorem settled_of_short (db : DB) (e : WalkEntry) (h : e.segs.length < 6) :
    settled db e = true := by
  unfold settled
  by_cases hv : (!isVideoEntry e) = true
  · rw [if_pos hv]
  · rw [if_neg hv, if_pos h]

/-- Characterization of `settled` on a cataloged (video, deep-enough)
entry. -/
theorem settled_iff (db : DB) (e : WalkEntry) (hv : isVideoEntry e = true)
    (hl : ¬(e.segs.length < 6)) :
    settled db e = true ↔
      ∃ t, db.teams.find? (fun x => x.name == e.segs.getD 2 "") = some t ∧
        (∃ p, db.players.find?
          (fun x => x.name == e.segs.getD 4 "" && x.teamId == t.id) = some p) ∧
        db.vods.countP (fun v => v.filePath == e.segs) ≠ 0 := by
  unfold settled
  rw [hv]
  rw [if_neg (by simp), if_neg hl]
  constructor
  · intro h
    split at h
    · exact absurd h (by simp)
    · rename_i t ht
      split at h
      · exact absurd h (by simp)
      · rename_i p hp
        exact ⟨t, ht, ⟨p, hp⟩, by simpa using h⟩
  · rintro ⟨t, ht, ⟨p, hp⟩, hcnt⟩
    simp only [ht, hp]
    simpa using hcnt

theorem scanStep_skip_notVideo (db : DB) (e : WalkEntry) (h : isVideoEntry e = false) :
    scanStep db e = (db, []) := by
  unfold scanStep
  rw [h]
  rfl

theorem scanStep_skip_short (db : DB) (e : WalkEntry) (h : e.segs.length < 6) :
    scanStep db e = (db, []) := by
  unfold scanStep
  by_cases hv : (!isVideoEntry e) = true
  · rw [if_pos hv]
  · rw [if_neg hv, if_pos h]

/-- The walk callback on a cataloged entry is exactly the ensure-team,
ensure-player, ensure-vod chain. -/
theorem scanStep_eq (db : DB) (e : WalkEntry) (hv : isVideoEntry e = true)
    (hl : ¬(e.segs.length < 6)) :
    scanStep db e =
      ((ensureVod (ensurePlayer (ensureTeam db (e.segs.getD 2 "")).1 (e.segs.getD 4 "")
            (ensureTeam db (e.segs.getD 2 "")).2.1).1 e.segs
          (ensurePlayer (ensureTeam db (e.segs.getD 2 "")).1 (e.segs.getD 4 "")
            (ensureTeam db (e.segs.getD 2 "")).2.1).2.1).1,
        (ensureTeam db (e.segs.getD 2 "")).2.2 ++
          (ensurePlayer (ensureTeam db (e.segs.getD 2 "")).1 (e.segs.getD 4 "")
            (ensureTeam db (e.segs.getD 2 "")).2.1).2.2 ++
          (ensureVod (ensurePlayer (ensureTeam db (e.segs.getD 2 "")).1 (e.segs.getD 4 "")
              (ensureTeam db (e.segs.getD 2 "")).2.1).1 e.segs
            (ensurePlayer (ensureTeam db (e.segs.getD 2 "")).1 (e.segs.getD 4 "")
              (ensureTeam db (e.segs.getD 2 "")).2.1).2.1).2) := by
  unfold scanStep
  rw [hv]
  rw [if_neg (by simp), if_neg hl]

theorem scanStep_of_settled (db : DB) (e : WalkEntry) (h : settled db e = true) :
    scanStep db e = (db, []) := by
  by_cases hv : isVideoEntry e = true
  · by_cases hl : e.segs.length < 6
    · exact scanStep_skip_short db e hl
    · obtain ⟨t, ht, ⟨p, hp⟩, hcnt⟩ := (settled_iff db e hv hl).mp h
      rw [scanStep_eq db e hv hl, ensureTeam_found db _ t ht]
      simp only
      rw [ensurePlayer_found db _ t.id p hp]
      simp only
      rw [ensureVod_found db e.segs p.id hcnt]
      rfl
  · exact scanStep_skip_notVideo db e (by simpa using hv)

theorem scanStep_settled_self (db : DB) (e : WalkEntry) :
    settled (scanStep db e).1 e = true := by
  by_cases hv : isVideoEntry e = true
  · by_cases hl : e.segs.length < 6
    · exact settled_of_short _ e hl
    · rw [scanStep_eq db e hv hl]
      refine (settled_iff _ e hv hl).mpr
        ⟨⟨(ensureTeam db (e.segs.getD 2 "")).2.1, e.segs.getD 2 ""⟩, ?_,
          ⟨⟨(ensurePlayer (ensureTeam db (e.segs.getD 2 "")).1 (e.segs.getD 4 "")
              (ensureTeam db (e.segs.getD 2 "")).2.1).2.1,
            (ensureTeam db (e.segs.getD 2 "")).2.1, e.segs.getD 4 ""⟩, ?_⟩, ?_⟩
      · rw [(ensureVod_rest _ _ _).1, (ensurePlayer_rest _ _ _).1]
        exact ensureTeam_find db _
      · rw [(ensureVod_rest _ _ _).2.1]
        exact ensurePlayer_find _ _ _
      · exact ensureVod_count _ _ _
  · exact settled_of_notVideo _ e (by simpa using hv)

theorem scanStep_extends (db : DB) (e : WalkEntry) : Extends (scanStep db e).1 db := by
  by_cases hv : isVideoEntry e = true
  · by_cases hl : e.segs.length < 6
    · rw [scanStep_skip_short db e hl]; exact extends_refl db
    · rw [scanStep_eq db e hv hl]
      have x1 : Extends (ensureTeam db (e.segs.getD 2 "")).1 db :=
        ⟨ensureTeam_teams_append db _,
          ⟨[], by rw [(ensureTeam_rest db _).1]; simp⟩,
          ⟨[], by rw [(ensureTeam_rest db _).2.1]; simp⟩⟩
      have x2 : Extends (ensurePlayer (ensureTeam db (e.segs.getD 2 "")).1 (e.segs.getD 4 "")
          (ensureTeam db (e.segs.getD 2 "")).2.1).1 (ensureTeam db (e.segs.getD 2 "")).1 :=
        ⟨⟨[], by rw [(ensurePlayer_rest _ _ _).1]; simp⟩,
          ensurePlayer_players_append _ _ _,
          ⟨[], by rw [(ensurePlayer_rest _ _ _).2.1]; simp⟩⟩
      have x3 : Extends (ensureVod (ensurePlayer (ensureTeam db (e.segs.getD 2 "")).1
            (e.segs.getD 4 "") (ensureTeam db (e.segs.getD 2 "")).2.1).1 e.segs
            (ensurePlayer (ensureTeam db (e.segs.getD 2 "")).1 (e.segs.getD 4 "")
              (ensureTeam db (e.segs.getD 2 "")).2.1).2.1).1
          (ensurePlayer (ensureTeam db (e.segs.getD 2 "")).1 (e.segs.getD 4 "")
            (ensureTeam db (e.segs.getD 2 "")).2.1).1 := by
        obtain ⟨l, hl2, _⟩ := ensureVod_vods_append (ensurePlayer (ensureTeam db
          (e.segs.getD 2 "")).1 (e.segs.getD 4 "") (ensureTeam db (e.segs.getD 2 "")).2.1).1
          e.segs (ensurePlayer (ensureTeam db (e.segs.getD 2 "")).1 (e.segs.getD 4 "")
            (ensureTeam db (e.segs.getD 2 "")).2.1).2.1
        exact ⟨⟨[], by rw [(ensureVod_rest _ _ _).1]; simp⟩,
          ⟨[], by rw [(ensureVod_rest _ _ _).2.1]; simp⟩, ⟨l, hl2⟩⟩
      exact extends_trans (extends_trans x1 x2) x3
  · rw [scanStep_skip_notVideo db e (by simpa using hv)]; exact extends_refl db

theorem settled_mono (db db' : DB) (e : WalkEntry) (hx : Extends db' db)
    (h : settled db e = true) : settled db' e = true := by
  by_cases hv : isVideoEntry e = true
  · by_cases hl : e.segs.length < 6
    · exact settled_of_short db' e hl
    · obtain ⟨t, ht, ⟨p, hp⟩, hcnt⟩ := (settled_iff db e hv hl).mp h
      refine (settled_iff db' e hv hl).mpr ⟨t, ?_, ⟨p, ?_⟩, ?_⟩
      · obtain ⟨l, hteq⟩ := hx.1
        rw [hteq, List.find?_append, ht]
        rfl
      · obtain ⟨l, hpeq⟩ := hx.2.1
        rw [hpeq, List.find?_append, hp]
        rfl
      · obtain ⟨l, hveq⟩ := hx.2.2
        rw [hveq, List.countP_append]
        intro hc
        exact hcnt (Nat.eq_zero_of_add_eq_zero_right hc)
  · exact settled_of_notVideo db' e (by simpa using hv)

theorem scanStep_wf (db : DB) (e : WalkEntry) (h : VodIdsWf db) :
    VodIdsWf (scanStep db e).1 := by
  by_cases hv : isVideoEntry e = true
  · by_cases hl : e.segs.length < 6
    · rw [scanStep_skip_short db e hl]; exact h
    · rw [scanStep_eq db e hv hl]
      apply ensureVod_wf
      refine VodIdsWf_of_fields _ _ ((ensurePlayer_rest _ _ _).2.1)
        ((ensurePlayer_rest _ _ _).2.2.2) ?_
      exact VodIdsWf_of_fields _ _ ((ensureTeam_rest _ _).2.1)
        ((ensureTeam_rest _ _).2.2.2.2) h
  · rw [scanStep_skip_notVideo db e (by simpa using hv)]; exact h

theorem scanStep_vods_mem (db : DB) (e : WalkEntry) (v : VodRow)
    (hmem : v ∈ (scanStep db e).1.vods) :
    v ∈ db.vods ∨
      (isVideoEntry e = true ∧ ¬(e.segs.length < 6) ∧ v.filePath = e.segs) := by
  by_cases hv : isVideoEntry e = true
  · by_cases hl : e.segs.length < 6
    · rw [scanStep_skip_short db e hl] at hmem
      exact Or.inl hmem
    · rw [scanStep_eq db e hv hl] at hmem
      obtain ⟨l, hl2, hall⟩ := ensureVod_vods_append (ensurePlayer (ensureTeam db
        (e.segs.getD 2 "")).1 (e.segs.getD 4 "") (ensureTeam db (e.segs.getD 2 "")).2.1).1
        e.segs (ensurePlayer (ensureTeam db (e.segs.getD 2 "")).1 (e.segs.getD 4 "")
          (ensureTeam db (e.segs.getD 2 "")).2.1).2.1
      rw [hl2, (ensurePlayer_rest _ _ _).2.1, (ensureTeam_rest _ _).2.1] at hmem
      rcases List.mem_append.mp hmem with h1 | h1
      · exact Or.inl h1
      · exact Or.inr ⟨hv, hl, (hall v h1).1⟩
  · rw [scanStep_skip_notVideo db e (by simpa using hv)] at hmem
    exact Or.inl hmem

theorem scanStep_count_self (db : DB) (e : WalkEntry) (hv : isVideoEntry e = true)
    (hl : ¬(e.segs.length < 6)) :
    (scanStep db e).1.vods.countP (fun v => v.filePath == e.segs) ≠ 0 := by
  rw [scanStep_eq db e hv hl]
  exact ensureVod_count _ _ _

theorem ensureVod_count_le_one (db : DB) (segs : List String) (pid : Int)
    (h : ∀ p, db.vods.countP (fun v => v.filePath == p) ≤ 1) (p : List String) :
    (ensureVod db segs pid).1.vods.countP (fun v => v.filePath == p) ≤ 1 := by
  unfold ensureVod
  split
  · next hc =>
    simp only [List.countP_append, List.countP_cons, List.countP_nil]
    by_cases hps : segs = p
    · subst hps
      have hz : db.vods.countP (fun v => v.filePath == segs) = 0 := by simpa using hc
      simp [hz]
    · have : ((⟨db.nextVodId, pid, segs, segs.getLastD ""⟩ : VodRow).filePath == p) = false := by
        simpa using hps
      simp only [this, if_false]
      simpa using h p
  · exact h p

theorem scanStep_count_le_one (db : DB) (e : WalkEntry)
    (h : ∀ p, db.vods.countP (fun v => v.filePath == p) ≤ 1) (p : List String) :
    (scanStep db e).1.vods.countP (fun v => v.filePath == p) ≤ 1 := by
  by_cases hv : isVideoEntry e = true
  · by_cases hl : e.segs.length < 6
    · rw [scanStep_skip_short db e hl]; exact h p
    · rw [scanStep_eq db e hv hl]
      apply ensureVod_count_le_one
      intro q
      rw [(ensurePlayer_rest _ _ _).2.1, (ensureTeam_rest _ _).2.1]
      exact h q
  · rw [scanStep_skip_notVideo db e (by simpa using hv)]; exact h p

theorem scanWalk_cons (db : DB) (e : WalkEntry) (rest : List WalkEntry) :
    scanWalk db (e :: rest) =
      ((scanWalk (scanStep db e).1 rest).1,
        (scanStep db e).2 ++ (scanWalk (scanStep db e).1 rest).2) := rfl

theorem scanWalk_extends (disk : List WalkEntry) :
    ∀ db : DB, Extends (scanWalk db disk).1 db := by
  induction disk with
  | nil => intro db; exact extends_refl db
  | cons e rest ih =>
    intro db
    rw [scanWalk_cons]
    exact extends_trans (scanStep_extends db e) (ih (scanStep db e).1)

theorem scanWalk_settled_all (disk : List WalkEntry) :
    ∀ db : DB, ∀ e ∈ disk, settled (scanWalk db disk).1 e = true := by
  induction disk with
  | nil => intro db e he; cases he
  | cons e0 rest ih =>
    intro db e he
    rw [scanWalk_cons]
    rcases List.mem_cons.mp he with h1 | h1
    · subst h1
      exact settled_mono _ _ e (scanWalk_extends rest _) (scanStep_settled_self db e)
    · exact ih (scanStep db e0).1 e h1

theorem scanWalk_wf (disk : List WalkEntry) :
    ∀ db : DB, VodIdsWf db → VodIdsWf (scanWalk db disk).1 := by
  induction disk with
  | nil => intro db h; exact h
  | cons e rest ih =>
    intro db h
    rw [scanWalk_cons]
    exact ih (scanStep db e).1 (scanStep_wf db e h)

theorem segs_mem_qualPaths (disk : List WalkEntry) (e : WalkEntry) (he : e ∈ disk)
    (hv : isVideoEntry e = true) (hl : ¬(e.segs.length < 6)) : e.segs ∈ qualPaths disk := by
  unfold qualPaths
  refine List.mem_map.mpr ⟨e, List.mem_filter.mpr ⟨he, ?_⟩, rfl⟩
  simp [hv, Nat.not_lt.mp hl]

theorem segs_mem_filesOnDisk (disk : List WalkEntry) (e : WalkEntry) (he : e ∈ disk)
    (hv : isVideoEntry e = true) : e.segs ∈ filesOnDisk disk := by
  unfold filesOnDisk
  exact List.mem_map.mpr ⟨e, List.mem_filter.mpr ⟨he, hv⟩, rfl⟩

theorem mem_qualPaths_elim (disk : List WalkEntry) (p : List String)
    (h : p ∈ qualPaths disk) :
    ∃ e ∈ disk, isVideoEntry e = true ∧ ¬(e.segs.length < 6) ∧ e.segs = p := by
  unfold qualPaths at h
  obtain ⟨e, he, rfl⟩ := List.mem_map.mp h
  have h2 := List.mem_filter.mp he
  have h3 := h2.2
  simp only [Bool.and_eq_true, decide_eq_true_eq] at h3
  exact ⟨e, h2.1, h3.1, Nat.not_lt.mpr h3.2, rfl⟩

theorem qualPaths_sub_filesOnDisk (disk : List WalkEntry) (p : List String)
    (h : p ∈ qualPaths disk) : p ∈ filesOnDisk disk := by
  obtain ⟨e, he, hv, _, rfl⟩ := mem_qualPaths_elim disk p h
  exact segs_mem_filesOnDisk disk e he hv

theorem scanWalk_vods_mem (disk : List WalkEntry) :
    ∀ (db : DB) (v : VodRow), v ∈ (scanWalk db disk).1.vods →
      v ∈ db.vods ∨ v.filePath ∈ qualPaths disk := by
  induction disk with
  | nil => intro db v hv; exact Or.inl hv
  | cons e rest ih =>
    intro db v hv
    rw [scanWalk_cons] at hv
    rcases ih (scanStep db e).1 v hv with h1 | h1
    · rcases scanStep_vods_mem db e v h1 with h2 | ⟨hvid, hlen, hpath⟩
      · exact Or.inl h2
      · exact Or.inr (hpath ▸ segs_mem_qualPaths (e :: rest) e (List.mem_cons_self e rest) hvid hlen)
    · right
      obtain ⟨x, hx, hvx, hlx, hpx⟩ := mem_qualPaths_elim rest v.filePath h1
      exact hpx ▸ segs_mem_qualPaths (e :: rest) x (List.mem_cons_of_mem e hx) hvx hlx

theorem scanWalk_of_settled_all (disk : List WalkEntry) :
    ∀ db : DB, (∀ e ∈ disk, settled db e = true) → scanWalk db disk = (db, []) := by
  induction disk with
  | nil => intro db _; rfl
  | cons e rest ih =>
    intro db h
    rw [scanWalk_cons, scanStep_of_settled db e (h e (List.mem_cons_self e rest))]
    dsimp only
    rw [ih db (fun x hx => h x (List.mem_cons_of_mem e hx))]
    rfl

theorem scanWalk_count_le_one (disk : List WalkEntry) :
    ∀ db : DB, (∀ p, db.vods.countP (fun v => v.filePath == p) ≤ 1) →
      ∀ p, (scanWalk db disk).1.vods.countP (fun v => v.filePath == p) ≤ 1 := by
  induction disk with
  | nil => intro db h p; exact h p
  | cons e rest ih =>
    intro db h p
    rw [scanWalk_cons]
    exact ih (scanStep db e).1 (scanStep_count_le_one db e h) p

theorem da_cons_kept (v : VodRow) (rest : List VodRow) (files : List (List String)) (db : DB)
    (h : v.filePath ∈ files) :
    deleteStaleAux (v :: rest) files db = deleteStaleAux rest files db := by
  conv_lhs => unfold deleteStaleAux
  rw [if_pos h]

theorem da_cons_stale (v : VodRow) (rest : List VodRow) (files : List (List String)) (db : DB)
    (h : v.filePath ∉ files) :
    deleteStaleAux (v :: rest) files db =
      ((deleteStaleAux rest files
          { db with vods := db.vods.filter (fun w => !(w.id == v.id)) }).1,
        Mutation.deleteVod v.id ::
          (deleteStaleAux rest files
            { db with vods := db.vods.filter (fun w => !(w.id == v.id)) }).2) := by
  conv_lhs => unfold deleteStaleAux
  rw [if_neg h]

theorem da_no_stale (files : List (List String)) :
    ∀ (snap : List VodRow) (db : DB), (∀ v ∈ snap, v.filePath ∈ files) →
      deleteStaleAux snap files db = (db, []) := by
  intro snap
  induction snap with
  | nil => intro db _; rfl
  | cons v rest ih =>
    intro db h
    rw [da_cons_kept v rest files db (h v (List.mem_cons_self v rest))]
    exact ih db (fun x hx => h x (List.mem_cons_of_mem v hx))

theorem da_fields (files : List (List String)) :
    ∀ (snap : List VodRow) (db : DB),
      (deleteStaleAux snap files db).1.teams = db.teams ∧
        (deleteStaleAux snap files db).1.players = db.players ∧
        (deleteStaleAux snap files db).1.notes = db.notes := by
  intro snap
  induction snap with
  | nil => intro db; exact ⟨rfl, rfl, rfl⟩
  | cons v rest ih =>
    intro db
    by_cases hf : v.filePath ∈ files
    · rw [da_cons_kept v rest files db hf]
      exact ih db
    · rw [da_cons_stale v rest files db hf]
      exact ih { db with vods := db.vods.filter (fun w => !(w.id == v.id)) }

theorem da_mem (files : List (List String)) :
    ∀ (snap : List VodRow) (db : DB) (w : VodRow),
      w ∈ (deleteStaleAux snap files db).1.vods →
        w ∈ db.vods ∧ ∀ v ∈ snap, v.filePath ∉ files → v.id ≠ w.id := by
  intro snap
  induction snap with
  | nil =>
    intro db w hw
    exact ⟨hw, fun v hv => absurd hv (List.not_mem_nil v)⟩
  | cons v rest ih =>
    intro db w hw
    by_cases hf : v.filePath ∈ files
    · rw [da_cons_kept v rest files db hf] at hw
      obtain ⟨h1, h2⟩ := ih db w hw
      refine ⟨h1, fun u hu hust => ?_⟩
      rcases List.mem_cons.mp hu with rfl | hu2
      · exact absurd hf hust
      · exact h2 u hu2 hust
    · rw [da_cons_stale v rest files db hf] at hw
      obtain ⟨h1, h2⟩ := ih { db with vods := db.vods.filter (fun w => !(w.id == v.id)) } w hw
      simp only [List.mem_filter, Bool.not_eq_eq_eq_not, Bool.not_true, beq_eq_false_iff_ne,
        ne_eq] at h1
      refine ⟨h1.1, fun u hu hust => ?_⟩
      rcases List.mem_cons.mp hu with rfl | hu2
      · exact fun hid => h1.2 hid.symm
      · exact h2 u hu2 hust

theorem da_surv (files : List (List String)) :
    ∀ (snap : List VodRow) (db : DB) (w : VodRow), w ∈ db.vods →
      (∀ v ∈ snap, v.filePath ∉ files → v.id ≠ w.id) →
      w ∈ (deleteStaleAux snap files db).1.vods := by
  intro snap
  induction snap with
  | nil => intro db w hw _; exact hw
  | cons v rest ih =>
    intro db w hw h
    by_cases hf : v.filePath ∈ files
    · rw [da_cons_kept v rest files db hf]
      exact ih db w hw (fun u hu => h u (List.mem_cons_of_mem v hu))
    · rw [da_cons_stale v rest files db hf]
      refine ih _ w ?_ (fun u hu => h u (List.mem_cons_of_mem v hu))
      refine List.mem_filter.mpr ⟨hw, ?_⟩
      have hne : v.id ≠ w.id := h v (List.mem_cons_self v rest) hf
      simpa using fun heq => hne heq.symm

theorem da_vods_sublist (files : List (List String)) :
    ∀ (snap : List VodRow) (db : DB),
      List.Sublist (deleteStaleAux snap files db).1.vods db.vods := by
  intro snap
  induction snap with
  | nil => intro db; exact List.Sublist.refl _
  | cons v rest ih =>
    intro db
    by_cases hf : v.filePath ∈ files
    · rw [da_cons_kept v rest files db hf]
      exact ih db
    · rw [da_cons_stale v rest files db hf]
      exact List.Sublist.trans
        (ih { db with vods := db.vods.filter (fun w => !(w.id == v.id)) })
        (List.filter_sublist db.vods)

/-- The teams, players and notes tables after a full `ScanStorage` pass are
exactly those left by the walk phase. -/
theorem ScanStorage_fields (db : DB) (disk : List WalkEntry) :
    (ScanStorage db disk).1.teams = (scanWalk db disk).1.teams ∧
      (ScanStorage db disk).1.players = (scanWalk db disk).1.players ∧
      (ScanStorage db disk).1.notes = (scanWalk db disk).1.notes :=
  da_fields (filesOnDisk disk) (scanWalk db disk).1.vods (scanWalk db disk).1

/-- After a full `ScanStorage` pass, every remaining vod row's path is one of
the video files seen on disk. -/
theorem ScanStorage_vods_on_disk (db : DB) (disk : List WalkEntry) :
    ∀ v ∈ (ScanStorage db disk).1.vods, v.filePath ∈ filesOnDisk disk := by
  intro v hv
  obtain ⟨h1, h2⟩ := da_mem (filesOnDisk disk) (scanWalk db disk).1.vods (scanWalk db disk).1 v hv
  by_contra hnot
  exact (h2 v h1 hnot) rfl

/-- After a full `ScanStorage` pass from a store with well-formed vod ids,
every disk entry is settled: re-processing it mutates nothing. -/
theorem ScanStorage_settled_all (db : DB) (disk : List WalkEntry) (hwf : VodIdsWf db) :
    ∀ e ∈ disk, settled (ScanStorage db disk).1 e = true := by
  intro e he
  by_cases hv : isVideoEntry e = true
  · by_cases hl : e.segs.length < 6
    · exact settled_of_short _ e hl
    · have hw : settled (scanWalk db disk).1 e = true := scanWalk_settled_all disk db e he
      obtain ⟨t, ht, ⟨p, hp⟩, hcnt⟩ := (settled_iff _ e hv hl).mp hw
      refine (settled_iff _ e hv hl).mpr ⟨t, ?_, ⟨p, ?_⟩, ?_⟩
      · rw [(ScanStorage_fields db disk).1]
        exact ht
      · rw [(ScanStorage_fields db disk).2.1]
        exact hp
      · obtain ⟨w, hwmem, hwp⟩ :=
          List.countP_pos_iff.mp (Nat.pos_of_ne_zero hcnt)
        have hwpath : w.filePath = e.segs := by simpa using hwp
        have hwfwalk : VodIdsWf (scanWalk db disk).1 := scanWalk_wf disk db hwf
        have hfiles : w.filePath ∈ filesOnDisk disk :=
          hwpath ▸ segs_mem_filesOnDisk disk e he hv
        have hsurv : w ∈ (ScanStorage db disk).1.vods := by
          refine da_surv (filesOnDisk disk) (scanWalk db disk).1.vods (scanWalk db disk).1 w
            hwmem (fun u hu hust hid => ?_)
          have : u = w := List.inj_on_of_nodup_map hwfwalk.1 hu hwmem hid
          exact hust (this ▸ hfiles)
        intro hzero
        rw [List.countP_eq_zero] at hzero
        exact hzero w hsurv hwp
  · exact settled_of_notVideo _ e (by simpa using hv)

/-- C2 (the code evaluated at the failing input): the claim says deleting a
Recording deletes all its Annotations, but on the server's connection the
foreign-key pragma was never issued, so when `ScanStorage` removes a vods
row whose path is absent from disk the rows of `notes` referencing it
survive: from a store with one vod (id 1) and one note on it, scanning an
empty tree deletes the vod yet leaves the note row in place. -/
theorem scan_delete_orphans_notes :
    (ScanStorage ⟨[], [⟨1, "T"⟩], [⟨1, 1, "P"⟩],
        [⟨1, 1, ["storage", "teams", "T", "players", "P", "vods", "old.mp4"], "old.mp4"⟩],
        [⟨1, 1, 5, (3 : Rat), "note text"⟩], 2, 2, 2, 2⟩ []).1.vods = [] ∧
    (ScanStorage ⟨[], [⟨1, "T"⟩], [⟨1, 1, "P"⟩],
        [⟨1, 1, ["storage", "teams", "T", "players", "P", "vods", "old.mp4"], "old.mp4"⟩],
        [⟨1, 1, 5, (3 : Rat), "note text"⟩], 2, 2, 2, 2⟩ []).1.notes.countP
      (fun n => n.vodId == 1) = 1 := by decide

/-- C7 (the code evaluated at the failing input): the claim says `addNote`
with an absent recording id surfaces a not-found error and inserts nothing,
but the handler never checks that the vod exists and the server's connection
does not enforce foreign keys, so the insert succeeds: against a store whose
vods table is empty, `addNote` for vod id 99 answers 200 and a notes row
referencing the non-existent vod is stored. -/
theorem addNote_missing_vod_inserts :
    ((⟨[], [], [], [], [], 1, 1, 1, 1⟩ : DB).vods = []) ∧
    (addNote ⟨[], [], [], [], [], 1, 1, 1, 1⟩ 1 99 (2 : Rat) "hello").2.status = 200 ∧
    (addNote ⟨[], [], [], [], [], 1, 1, 1, 1⟩ 1 99 (2 : Rat) "hello").1.notes =
      [⟨1, 99, 1, (2 : Rat), "hello"⟩] := by decide

/-- C8: for every authenticated identity whose role is not "admin", the
create-team operation answers the authorization error 403 "forbidden", the
store (in particular the teams table) is unchanged, and the status differs
from every authentication error the `auth` middleware can produce (all
401). -/
theorem addTeam_role_gate (db : DB) (role : String) (body : Option String)
    (h : role ≠ "admin") :
    (addTeam db role body).1 = db ∧
    (addTeam db role body).2 = ⟨403, "forbidden"⟩ ∧
    (addTeam db role body).2.status ≠ respMissingBearer.status ∧
    (addTeam db role body).2.status ≠ respBadToken.status ∧
    (addTeam db role body).2.status ≠ respBadClaims.status := by
  have hb : (role != "admin") = true := by
    simpa [bne_iff_ne] using h
  unfold addTeam
  rw [if_pos hb]
  exact ⟨rfl, rfl, (by decide : (403 : Nat) ≠ 401), (by decide : (403 : Nat) ≠ 401),
    (by decide : (403 : Nat) ≠ 401)⟩

theorem addTeam_role_gate_witness :
    ("coach" ≠ "admin") ∧
    ((addTeam ⟨[], [], [], [], [], 1, 1, 1, 1⟩ "coach" (some "X")).1 =
        (⟨[], [], [], [], [], 1, 1, 1, 1⟩ : DB) ∧
      (addTeam ⟨[], [], [], [], [], 1, 1, 1, 1⟩ "coach" (some "X")).2 = ⟨403, "forbidden"⟩ ∧
      (addTeam ⟨[], [], [], [], [], 1, 1, 1, 1⟩ "coach" (some "X")).2.status ≠
        respMissingBearer.status ∧
      (addTeam ⟨[], [], [], [], [], 1, 1, 1, 1⟩ "coach" (some "X")).2.status ≠
        respBadToken.status ∧
      (addTeam ⟨[], [], [], [], [], 1, 1, 1, 1⟩ "coach" (some "X")).2.status ≠
        respBadClaims.status) :=
  ⟨by decide, addTeam_role_gate ⟨[], [], [], [], [], 1, 1, 1, 1⟩ "coach" (some "X") (by decide)⟩

/-- C9: login does not leak username existence: an attempt with a username
absent from the users table and an attempt with an existing username but a
password the hash comparison rejects produce the identical observable
response — status 401 and body "invalid credentials". -/
theorem login_no_username_leak (verify : String → String → Bool) (db : DB)
    (u1 p1 u2 p2 : String) (u : UserRow)
    (h1 : db.users.find? (fun x => x.username == u1) = none)
    (h2 : db.users.find? (fun x => x.username == u2) = some u)
    (h3 : verify u.passwordHash p2 = false) :
    (login verify db u1 p1).2 = (login verify db u2 p2).2 ∧
    (login verify db u1 p1).2 = ⟨401, "invalid credentials"⟩ := by
  unfold login
  rw [h1, h2]
  simp [h3]

theorem login_no_username_leak_witness :
    ((⟨[⟨1, "alice", "h", "admin"⟩], [], [], [], [], 1, 1, 1, 1⟩ : DB).users.find?
        (fun x => x.username == "bob") = none) ∧
    ((login (fun _ _ => false) ⟨[⟨1, "alice", "h", "admin"⟩], [], [], [], [], 1, 1, 1, 1⟩
          "bob" "pw").2 =
        (login (fun _ _ => false) ⟨[⟨1, "alice", "h", "admin"⟩], [], [], [], [], 1, 1, 1, 1⟩
          "alice" "pw").2 ∧
      (login (fun _ _ => false) ⟨[⟨1, "alice", "h", "admin"⟩], [], [], [], [], 1, 1, 1, 1⟩
          "bob" "pw").2 = ⟨401, "invalid credentials"⟩) :=
  ⟨by decide,
    login_no_username_leak (fun _ _ => false)
      ⟨[⟨1, "alice", "h", "admin"⟩], [], [], [], [], 1, 1, 1, 1⟩
      "bob" "pw" "alice" "pw" ⟨1, "alice", "h", "admin"⟩ (by decide) (by decide) rfl⟩

/-- C10: for a request whose bearer token parses as valid claims, the auth
middleware panics exactly when the "sub" claim is not a JSON number or the
"role" claim is not a string (a missing claim reads as nil and also
panics); it reaches a non-panicking outcome only when both claims are
present with those types. -/
theorem auth_bad_claims_panics (parse : String → ParseOut) (header : String) (cs : JwtClaims)
    (hpre : goHasPrefix header "Bearer " = true)
    (hparse : parse (goDropChars header 7) = ParseOut.valid cs) :
    auth parse header = AuthOutcome.panicked ↔
      ¬((claimGet cs "sub").isNum = true ∧ (claimGet cs "role").isStr = true) := by
  unfold auth
  rw [hpre, hparse]
  cases hsub : claimGet cs "sub" <;> cases hrole : claimGet cs "role" <;>
    simp [hsub, hrole, GoVal.isNum, GoVal.isStr]

theorem auth_bad_claims_panics_witness :
    (goHasPrefix "Bearer t" "Bearer " = true) ∧
    (auth (fun _ => ParseOut.valid [("sub", GoVal.str "x"), ("role", GoVal.str "admin")])
        "Bearer t" = AuthOutcome.panicked ↔
      ¬((claimGet [("sub", GoVal.str "x"), ("role", GoVal.str "admin")] "sub").isNum = true ∧
        (claimGet [("sub", GoVal.str "x"), ("role", GoVal.str "admin")] "role").isStr = true)) :=
  ⟨by decide,
    auth_bad_claims_panics
      (fun _ => ParseOut.valid [("sub", GoVal.str "x"), ("role", GoVal.str "admin")])
      "Bearer t" [("sub", GoVal.str "x"), ("role", GoVal.str "admin")] (by decide) rfl⟩

/-- C3: reconciliation is idempotent: for every directory tree and every
store whose vod ids satisfy the schema's primary-key invariants, running
`ScanStorage` a second time against the unchanged tree performs zero catalog
mutations and leaves the store state exactly as after the first run. -/
theorem scan_idempotent (db : DB) (disk : List WalkEntry) (hwf : VodIdsWf db) :
    ScanStorage (ScanStorage db disk).1 disk = ((ScanStorage db disk).1, []) := by
  have hgen : ∀ S : DB, (∀ e ∈ disk, settled S e = true) →
      (∀ v ∈ S.vods, v.filePath ∈ filesOnDisk disk) →
      ScanStorage S disk = (S, []) := by
    intro S hset hdiskv
    unfold ScanStorage
    rw [scanWalk_of_settled_all disk S hset]
    dsimp only
    rw [da_no_stale (filesOnDisk disk) S.vods S hdiskv]
    rfl
  exact hgen (ScanStorage db disk).1 (ScanStorage_settled_all db disk hwf)
    (ScanStorage_vods_on_disk db disk)

theorem scan_idempotent_witness :
    VodIdsWf ⟨[], [], [], [], [], 1, 1, 1, 1⟩ ∧
    ScanStorage (ScanStorage ⟨[], [], [], [], [], 1, 1, 1, 1⟩
        [⟨["storage", "teams", "T", "players", "P", "vods", "f.mp4"], false⟩]).1
      [⟨["storage", "teams", "T", "players", "P", "vods", "f.mp4"], false⟩] =
      ((ScanStorage ⟨[], [], [], [], [], 1, 1, 1, 1⟩
        [⟨["storage", "teams", "T", "players", "P", "vods", "f.mp4"], false⟩]).1, []) :=
  ⟨by decide,
    scan_idempotent ⟨[], [], [], [], [], 1, 1, 1, 1⟩
      [⟨["storage", "teams", "T", "players", "P", "vods", "f.mp4"], false⟩] (by decide)⟩

/-- C1 counterexample: the claim's "qualifying file" requires the fixed
depth pattern `root/teams/<team>/players/<player>/vods/<file>`, but the code
only checks for at least 6 slash-separated parts and never the literal
`teams`/`players`/`vods` segments: a `.mp4` file at
`storage/teams/T/players/P/f.mp4` (no `vods` directory, not matching the
pattern) still receives a vods row, so after `ScanStorage` the catalog
holds a path that is not a qualifying file. -/
theorem scan_catalog_counterexample :
    (ScanStorage ⟨[], [], [], [], [], 1, 1, 1, 1⟩
        [⟨["storage", "teams", "T", "players", "P", "f.mp4"], false⟩]).1.vods.map
      (fun v => v.filePath) = [["storage", "teams", "T", "players", "P", "f.mp4"]] ∧
    specQualifyingPath ["storage", "teams", "T", "players", "P", "f.mp4"] = false := by
  decide

theorem countP_le_one_of_nodup_map {α β : Type} [BEq β] [LawfulBEq β] (f : α → β) (l : List α)
    (h : (l.map f).Nodup) (q : β) : l.countP (fun x => f x == q) ≤ 1 := by
  induction l with
  | nil => simp
  | cons a rest ih =>
    simp only [List.map_cons, List.nodup_cons] at h
    rw [List.countP_cons]
    by_cases hq : f a = q
    · subst hq
      have hz : rest.countP (fun x => f x == f a) = 0 := by
        rw [List.countP_eq_zero]
        intro b hb
        simp only [beq_iff_eq]
        intro hfb
        exact h.1 (List.mem_map.mpr ⟨b, hb, hfb⟩)
      simp [hz]
    · have hfa : (f a == q) = false := by simpa using hq
      simpa [hfa] using ih h.2

theorem mem_filesOnDisk_elim (disk : List WalkEntry) (p : List String)
    (h : p ∈ filesOnDisk disk) : ∃ e ∈ disk, isVideoEntry e = true ∧ e.segs = p := by
  unfold filesOnDisk at h
  obtain ⟨e, he, rfl⟩ := List.mem_map.mp h
  have h2 := List.mem_filter.mp he
  exact ⟨e, h2.1, h2.2, rfl⟩

/-- C1 (amended): after `ScanStorage` completes on a store whose vods table
satisfies the invariants the scanner itself establishes and SQLite's
primary key enforces — pairwise-distinct row ids with a fresh counter,
pairwise-distinct file_path values, and every stored path of catalog shape
(at least 6 slash-separated segments) — the multiset of file_path values in
vods is exactly the set of regular files on disk whose lowercased name ends
in `.mp4` and whose path has at least 6 segments (the code's only shape
check; team is segment index 2 and player segment index 4, and neither the
literal `teams`/`players`/`vods` segment names nor the exact pattern depth
are checked), one row per such file: every such path has a row, every row's
path is such a file — in particular every stale row, one whose file is gone
from disk, is removed — and no path has more than one row. -/
theorem scan_catalog_matches_disk (db : DB) (disk : List WalkEntry)
    (hwf : VodIdsWf db)
    (hnd : (db.vods.map (fun v => v.filePath)).Nodup)
    (hlen : ∀ v ∈ db.vods, 6 ≤ v.filePath.length) :
    (∀ p ∈ qualPaths disk,
        (ScanStorage db disk).1.vods.countP (fun v => v.filePath == p) ≠ 0) ∧
      (∀ v ∈ (ScanStorage db disk).1.vods, v.filePath ∈ qualPaths disk) ∧
      (∀ p, (ScanStorage db disk).1.vods.countP (fun v => v.filePath == p) ≤ 1) := by
  refine ⟨?_, ?_, ?_⟩
  · intro p hp
    obtain ⟨e, he, hv, hl, rfl⟩ := mem_qualPaths_elim disk p hp
    have hs := ScanStorage_settled_all db disk hwf e he
    obtain ⟨t, _, _, hcnt⟩ := (settled_iff _ e hv hl).mp hs
    exact hcnt
  · intro v hv
    have hondisk := ScanStorage_vods_on_disk db disk v hv
    obtain ⟨h1, _⟩ :=
      da_mem (filesOnDisk disk) (scanWalk db disk).1.vods (scanWalk db disk).1 v hv
    rcases scanWalk_vods_mem disk db v h1 with h2 | h2
    · obtain ⟨e, he, hvid, hsegs⟩ := mem_filesOnDisk_elim disk v.filePath hondisk
      have h6 : ¬(e.segs.length < 6) := Nat.not_lt.mpr (hsegs ▸ hlen v h2)
      exact hsegs ▸ segs_mem_qualPaths disk e he hvid h6
    · exact h2
  · intro p
    have hbase : ∀ q, db.vods.countP (fun v => v.filePath == q) ≤ 1 := fun q =>
      countP_le_one_of_nodup_map (fun v => v.filePath) db.vods hnd q
    exact le_trans
      ((da_vods_sublist (filesOnDisk disk) (scanWalk db disk).1.vods
        (scanWalk db disk).1).countP_le _)
      (scanWalk_count_le_one disk db hbase p)

theorem scan_catalog_matches_disk_witness :
    VodIdsWf ⟨[], [⟨1, "T"⟩], [⟨1, 1, "P"⟩],
      [⟨1, 1, ["storage", "teams", "T", "players", "P", "vods", "gone.mp4"], "gone.mp4"⟩],
      [], 2, 2, 2, 1⟩ ∧
    (ScanStorage ⟨[], [⟨1, "T"⟩], [⟨1, 1, "P"⟩],
        [⟨1, 1, ["storage", "teams", "T", "players", "P", "vods", "gone.mp4"], "gone.mp4"⟩],
        [], 2, 2, 2, 1⟩
        [⟨["storage", "teams", "T", "players", "P", "vods", "f.mp4"], false⟩]).1.vods.countP
      (fun v => v.filePath == ["storage", "teams", "T", "players", "P", "vods", "f.mp4"]) ≠ 0 :=
  ⟨by decide,
    (scan_catalog_matches_disk ⟨[], [⟨1, "T"⟩], [⟨1, 1, "P"⟩],
        [⟨1, 1, ["storage", "teams", "T", "players", "P", "vods", "gone.mp4"], "gone.mp4"⟩],
        [], 2, 2, 2, 1⟩
        [⟨["storage", "teams", "T", "players", "P", "vods", "f.mp4"], false⟩]
        (by decide) (by decide) (by decide)).1
      ["storage", "teams", "T", "players", "P", "vods", "f.mp4"] (by decide)⟩
